import Mathlib

/-!
Verification of the xprogram voting-topic ledger: the binary state codec,
the instruction protocol and the processor state machine, shallowly embedded
from the Rust sources `src/program/src/{util,state,instruction,processor}.rs`.

Modelling conventions:
* byte buffers and strings are `List Nat` with entries `< 256` where a
  theorem needs it; Rust `Pubkey` values are 32-byte lists;
* fallible Rust code returns `Except ProgErr`; a Rust panic (index out of
  bounds, failed `unwrap`) is modelled by the distinguished value
  `ProgErr.aborted`, which is never a returned error code of the program;
* in-place buffer mutation is modelled by explicit state passing: each
  processor entry point maps a pre-call buffer to a result and a post-call
  buffer.
-/

set_option maxRecDepth 100000

/-- Byte buffers and byte strings, one `Nat` per byte. -/
abbrev Bytes := List Nat

instance {ε α : Type} [DecidableEq ε] [DecidableEq α] : DecidableEq (Except ε α) := fun a b =>
  match a, b with
  | .error e, .error f => decidable_of_iff (e = f) (by simp)
  | .error _, .ok _ => isFalse (fun h => by cases h)
  | .ok _, .error _ => isFalse (fun h => by cases h)
  | .ok x, .ok y => decidable_of_iff (x = y) (by simp)

/-- The `solana_program::program_error::ProgramError` variants used by the
sources, plus `aborted`, which models a Rust panic rather than a returned
error code. -/
inductive ProgErr where
  | invalidInstructionData
  | illegalOwner
  | missingRequiredSignature
  | accountAlreadyInitialized
  | invalidAccountData
  | invalidArgument
  | aborted
  deriving DecidableEq, Repr

/-- The delimiter byte of the text encoding and of the CreateTopic payload:
the character code of the vertical bar. -/
def barByte : Nat := 124

/-- Models `util::str_unpack`: scan `src` for the first delimiter byte,
defaulting the split index to 0 when none is found; a split index of 0
decodes to the empty string, otherwise the bytes before the delimiter are
the decoded text. -/
def strUnpack (src : Bytes) : Bytes :=
  let j := src.findIdx (fun b => b == barByte)
  let splitIndex := if j = src.length then 0 else j
  if splitIndex = 0 then [] else src.take splitIndex

/-- Models `util::str_pack`: write the string bytes at the start of `dst`
followed by one delimiter byte, leaving the remainder of `dst` untouched.
The source indexes out of bounds (a panic) when
`str.length + 1 > dst.length`; every theorem stays below that bound. -/
def strPack (s : Bytes) (dst : Bytes) : Bytes :=
  (s ++ [barByte] ++ dst.drop (s.length + 1)).take dst.length

/-- A UTF-8 continuation byte, `0x80 ..= 0xBF`. -/
def contByte (b : Nat) : Bool := 128 ≤ b && b ≤ 191

/-- Exactly the byte sequences accepted by Rust `str::from_utf8`:
well-formed UTF-8 (shortest-form encodings, no surrogates, max U+10FFFF). -/
def utf8Valid : Bytes → Bool
  | [] => true
  | b :: rest =>
    if b ≤ 127 then utf8Valid rest
    else if 194 ≤ b && b ≤ 223 then
      match rest with
      | c1 :: rest2 => contByte c1 && utf8Valid rest2
      | [] => false
    else if b = 224 then
      match rest with
      | c1 :: c2 :: rest2 => (160 ≤ c1 && c1 ≤ 191) && contByte c2 && utf8Valid rest2
      | _ => false
    else if (225 ≤ b && b ≤ 236) || (238 ≤ b && b ≤ 239) then
      match rest with
      | c1 :: c2 :: rest2 => contByte c1 && contByte c2 && utf8Valid rest2
      | _ => false
    else if b = 237 then
      match rest with
      | c1 :: c2 :: rest2 => (128 ≤ c1 && c1 ≤ 159) && contByte c2 && utf8Valid rest2
      | _ => false
    else if b = 240 then
      match rest with
      | c1 :: c2 :: c3 :: rest2 =>
          (144 ≤ c1 && c1 ≤ 191) && contByte c2 && contByte c3 && utf8Valid rest2
      | _ => false
    else if 241 ≤ b && b ≤ 243 then
      match rest with
      | c1 :: c2 :: c3 :: rest2 => contByte c1 && contByte c2 && contByte c3 && utf8Valid rest2
      | _ => false
    else if b = 244 then
      match rest with
      | c1 :: c2 :: c3 :: rest2 =>
          (128 ≤ c1 && c1 ≤ 143) && contByte c2 && contByte c3 && utf8Valid rest2
      | _ => false
    else false

/-- The four operations of `instruction::TopicInstruction`.  The text fields
hold the raw bytes of the Rust `&str` payloads. -/
inductive TopicInstruction where
  | createTopic (topic_name : Bytes) (option_name : Bytes)
  | addOption (option_name : Bytes)
  | voteTopic (opt_idx : Nat)
  | finishTopic
  deriving DecidableEq, Repr

/-- Models the delimiter scan of `TopicInstruction::unpack` for tag 0:
the index of the first delimiter byte of `l`, defaulting to 0 when the
delimiter does not occur. -/
def firstBar (l : Bytes) : Nat :=
  let j := l.findIdx (fun b => b == barByte)
  if j = l.length then 0 else j

/-- Models `TopicInstruction::unpack`.  Tag 0 splits the payload at the
first delimiter byte, fails with `InvalidInstructionData` when nothing
follows the split position, and `unwrap`s UTF-8 validation of both parts
(`aborted` on invalid bytes).  Tag 1 `unwrap`s UTF-8 validation of the
whole payload.  Tag 2 indexes the first payload byte (`aborted` when the
payload is empty).  Tag 3 takes no payload.  Any other tag, or an empty
input, fails with `InvalidInstructionData`. -/
def TopicInstruction.unpack (input : Bytes) : Except ProgErr TopicInstruction :=
  match input with
  | [] => .error .invalidInstructionData
  | tag :: rest =>
    match tag with
    | 0 =>
      let splitIndex := firstBar rest
      let topicName := rest.take splitIndex
      match rest.drop splitIndex with
      | [] => .error .invalidInstructionData
      | _ :: optionName =>
        if utf8Valid topicName && utf8Valid optionName then
          .ok (.createTopic topicName optionName)
        else .error .aborted
    | 1 =>
      if utf8Valid rest then .ok (.addOption rest) else .error .aborted
    | 2 =>
      match rest with
      | [] => .error .aborted
      | b :: _ => .ok (.voteTopic b)
    | 3 => .ok .finishTopic
    | _ + 4 => .error .invalidInstructionData

/-- Models `TopicInstruction::pack`: the tag byte followed by the payload,
with the CreateTopic names joined by one delimiter byte. -/
def TopicInstruction.pack : TopicInstruction → Bytes
  | .createTopic topicName optionName => 0 :: (topicName ++ barByte :: optionName)
  | .addOption optionName => 1 :: optionName
  | .voteTopic b => [2, b]
  | .finishTopic => [3]

/-- The `state::Option` record (named `Opt` here because `Option` is taken
in Lean).  `voters` is the fixed array of 30 `Pubkey` slots, `name` the
100-byte text field. -/
structure Opt where
  belongs_to : Bytes
  belongs_idx : Nat
  name : Bytes
  voters : List Bytes
  current_voter_index : Nat
  deriving DecidableEq, Repr

/-- `state::Option::default()`: all-zero fields. -/
def Opt.defaultOpt : Opt :=
  { belongs_to := List.replicate 32 0
    belongs_idx := 0
    name := List.replicate 100 0
    voters := List.replicate 30 (List.replicate 32 0)
    current_voter_index := 0 }

/-- `state::Option::new`: pack the name into a fresh zeroed field, no voters. -/
def Opt.new (belongs_to : Bytes) (belongs_idx : Nat) (nm : Bytes) : Opt :=
  { belongs_to := belongs_to
    belongs_idx := belongs_idx
    name := strPack nm (List.replicate 100 0)
    voters := List.replicate 30 (List.replicate 32 0)
    current_voter_index := 0 }

/-- Models `state::Option::add_voter`: reject when the counter sits at the
last slot (index 29); otherwise record the voter at the counter and
increment it.  A counter past the array bound indexes out of bounds in the
source (`aborted`). -/
def Opt.add_voter (o : Opt) (voter : Bytes) : Except ProgErr Opt :=
  if o.current_voter_index = o.voters.length - 1 then .error .invalidArgument
  else if o.current_voter_index < o.voters.length then
    .ok { o with voters := o.voters.set o.current_voter_index voter
                 current_voter_index := o.current_voter_index + 1 }
  else .error .aborted

/-- The `state::Topic` record.  `options` is the fixed array of 10 `Opt`
slots. -/
structure Topic where
  name : Bytes
  options : List Opt
  opt_current_idx : Nat
  owner : Bytes
  result_idx : Nat
  is_finished : Bool
  deriving DecidableEq, Repr

/-- The all-zero `Topic`, the value decoded from a fresh zero-initialized
buffer (and `Topic::default()`). -/
def Topic.zeroTopic : Topic :=
  { name := List.replicate 100 0
    options := List.replicate 10 Opt.defaultOpt
    opt_current_idx := 0
    owner := List.replicate 32 0
    result_idx := 0
    is_finished := false }

/-- Models `state::Topic::finalize`: set the terminal flag and hardcode the
result index to 1. -/
def Topic.finalize (t : Topic) : Except ProgErr Topic :=
  .ok { t with is_finished := true, result_idx := 1 }

/-- Models `state::Topic::set_name`: repack the name into a fresh zeroed
field. -/
def Topic.set_name (t : Topic) (nm : Bytes) : Topic :=
  { t with name := strPack nm (List.replicate 100 0) }

/-- Models `state::Topic::name_is_empty`: decode the name field and test
for the empty string. -/
def Topic.name_is_empty (t : Topic) : Bool :=
  (strUnpack t.name).isEmpty

/-- Models `state::Topic::add_option`: reject when the counter sits at the
last slot (index 9); otherwise place a fresh option at the counter and
increment it.  A counter past the array bound indexes out of bounds in the
source (`aborted`). -/
def Topic.add_option (t : Topic) (topicKey : Bytes) (optName : Bytes) :
    Except ProgErr Topic :=
  if t.opt_current_idx = t.options.length - 1 then .error .invalidArgument
  else if t.opt_current_idx < t.options.length then
    .ok { t with
            options := t.options.set t.opt_current_idx
              (Opt.new topicKey t.opt_current_idx optName)
            opt_current_idx := t.opt_current_idx + 1 }
  else .error .aborted

/-- Models `state::Topic::vote`: reject only indices strictly greater than
`opt_current_idx`, then delegate to `Opt.add_voter` on the indexed slot.
An accepted index past the array bound indexes out of bounds in the source
(`aborted`). -/
def Topic.vote (t : Topic) (opt_idx : Nat) (voter : Bytes) :
    Except ProgErr Topic :=
  if t.opt_current_idx < opt_idx then .error .invalidArgument
  else if h : opt_idx < t.options.length then
    match (t.options[opt_idx]).add_voter voter with
    | .error e => .error e
    | .ok o => .ok { t with options := t.options.set opt_idx o }
  else .error .aborted

/-- The thirty consecutive 32-byte voter slots of the Option layout, read
by the loop of `state::Option::unpack_from_slice`. -/
def unpackKeys : Nat → Bytes → List Bytes
  | 0, _ => []
  | n + 1, l => l.take 32 :: unpackKeys n (l.drop 32)

/-- Field extraction of `state::Option::unpack_from_slice` over the layout
`[32 belongs_to][1 belongs_idx][100 name][960 voters][1 current_voter_index]`.
Callers guarantee at least 1094 bytes (the source `array_ref!` panics
otherwise, see `Opt.unpack_from_slice`). -/
def Opt.unpackCore (l : Bytes) : Opt :=
  { belongs_to := l.take 32
    belongs_idx := (l.drop 32).headD 0
    name := (l.drop 33).take 100
    voters := unpackKeys 30 (l.drop 133)
    current_voter_index := (l.drop 1093).headD 0 }

/-- Models `state::Option::unpack_from_slice`: `array_ref!(src, 0, 1094)`
panics (`none`) on a shorter slice, and the extraction never fails beyond
that. -/
def Opt.unpack_from_slice (l : Bytes) : Option Opt :=
  if 1094 ≤ l.length then some (Opt.unpackCore l) else none

/-- Models `state::Option::pack_into_slice` restricted to its 1094-byte
destination window: the concatenation of the five regions in layout order.
(The source writes each region in place; the window is fully overwritten.) -/
def Opt.pack (o : Opt) : Bytes :=
  o.belongs_to ++ ([o.belongs_idx] ++ (o.name ++ (o.voters.flatten ++ [o.current_voter_index])))

/-- The ten consecutive 1094-byte option slots of the Topic layout, read by
the loop of `state::Topic::unpack_from_slice`. -/
def unpackOpts : Nat → Bytes → List Opt
  | 0, _ => []
  | n + 1, l => Opt.unpackCore (l.take 1094) :: unpackOpts n (l.drop 1094)

/-- Models `state::Topic::unpack_from_slice` over the layout
`[100 name][10940 options][1 opt_current_idx][32 owner][1 result_idx][1 is_finished]`;
`array_ref!(src, 0, 11075)` panics (`none`) on a shorter slice, extra bytes
are ignored, and `is_finished` decodes to true exactly on byte value 1. -/
def Topic.unpack_from_slice (l : Bytes) : Option Topic :=
  if 11075 ≤ l.length then
    some
      { name := l.take 100
        options := unpackOpts 10 (l.drop 100)
        opt_current_idx := (l.drop 11040).headD 0
        owner := (l.drop 11041).take 32
        result_idx := (l.drop 11073).headD 0
        is_finished := (l.drop 11074).headD 0 == 1 }
  else none

/-- Models `state::Topic::pack_into_slice` as a transformer of the
destination buffer: the first 11074 bytes are overwritten with the packed
fields, the `is_finished` byte at offset 11074 is written (with 1) only
when the flag is true and otherwise keeps its previous value, and every
byte from offset 11075 on is left untouched.  `array_mut_ref!(dst, 0, 11075)`
panics (`none`) on a shorter destination. -/
def Topic.pack_into_slice (t : Topic) (dst : Bytes) : Option Bytes :=
  if 11075 ≤ dst.length then
    some
      (t.name ++
        ((t.options.map Opt.pack).flatten ++
          ([t.opt_current_idx] ++
            (t.owner ++
              ([t.result_idx] ++
                ([if t.is_finished then 1 else (dst.drop 11074).headD 0] ++
                  dst.drop 11075))))))
  else none

/-- The two participant accounts each processor entry point consumes: the
caller-verified facts of a `solana_program::account_info::AccountInfo`. -/
structure AccInfo where
  key : Bytes
  owner : Bytes
  is_signer : Bool
  deriving DecidableEq, Repr

/-- The two account checks every processor entry point performs before
touching the buffer: the topic account must be owned by the program, and
the acting participant must be a signer. -/
def accountChecks (programId : Bytes) (topicAcc actor : AccInfo) : Option ProgErr :=
  if topicAcc.owner ≠ programId then some .illegalOwner
  else if !actor.is_signer then some .missingRequiredSignature
  else none

/-- Body of `Processor::process_create_topic` after the account checks and
the unpack: gate on the decoded-name sentinel, then set the name, record
the owner and append the first option. -/
def createTopicBody (topicKey ownerKey topicName optionName : Bytes)
    (t : Topic) : Except ProgErr Topic :=
  if !t.name_is_empty then .error .accountAlreadyInitialized
  else ({ t.set_name topicName with owner := ownerKey }).add_option topicKey optionName

/-- Body of `Processor::process_add_option` after the account checks and
the unpack.  The state gate tests `topic.name.is_empty()` — emptiness of
the raw 100-byte array, not of the decoded string — and the terminal flag. -/
def addOptionBody (topicKey optionName : Bytes) (t : Topic) : Except ProgErr Topic :=
  if t.name.isEmpty || t.is_finished then .error .invalidAccountData
  else t.add_option topicKey optionName

/-- Body of `Processor::process_vote` after the account checks and the
unpack; same state gate as `addOptionBody`. -/
def voteBody (voterKey : Bytes) (opt_idx : Nat) (t : Topic) : Except ProgErr Topic :=
  if t.name.isEmpty || t.is_finished then .error .invalidAccountData
  else t.vote opt_idx voterKey

/-- Body of `Processor::process_finish` after the account checks and the
unpack: same state gate, then the owner-identity check, then `finalize`. -/
def finishBody (ownerKey : Bytes) (t : Topic) : Except ProgErr Topic :=
  if t.name.isEmpty || t.is_finished then .error .invalidAccountData
  else if t.owner ≠ ownerKey then .error .illegalOwner
  else t.finalize

/-- The common shape of the four processor entry points, in explicit
state-passing form: run the account checks, unpack the buffer, run the
operation body on the decoded value and re-serialize into the buffer only
on success.  Every failing path returns the buffer exactly as received. -/
def runBody (checks : Option ProgErr) (body : Topic → Except ProgErr Topic)
    (buf : Bytes) : Option ProgErr × Bytes :=
  match checks with
  | some e => (some e, buf)
  | none =>
    match Topic.unpack_from_slice buf with
    | none => (some .aborted, buf)
    | some t =>
      match body t with
      | .error e => (some e, buf)
      | .ok t2 =>
        match t2.pack_into_slice buf with
        | none => (some .aborted, buf)
        | some out => (none, out)

/-- Models `Processor::process` after instruction decode: dispatch the
decoded operation over the topic buffer and the two participant accounts
(`topicAcc` first, acting participant `actor` second). -/
def processInstr (programId : Bytes) (i : TopicInstruction)
    (topicAcc actor : AccInfo) (buf : Bytes) : Option ProgErr × Bytes :=
  match i with
  | .createTopic topicName optionName =>
      runBody (accountChecks programId topicAcc actor)
        (createTopicBody topicAcc.key actor.key topicName optionName) buf
  | .addOption optionName =>
      runBody (accountChecks programId topicAcc actor)
        (addOptionBody topicAcc.key optionName) buf
  | .voteTopic b =>
      runBody (accountChecks programId topicAcc actor)
        (voteBody actor.key b) buf
  | .finishTopic =>
      runBody (accountChecks programId topicAcc actor)
        (finishBody actor.key) buf

/-- Success test for operation bodies. -/
def isOkE (r : Except ProgErr Topic) : Bool :=
  match r with
  | .ok _ => true
  | .error _ => false

/-- A well-formed 32-byte key. -/
def KeyValid (k : Bytes) : Prop := k.length = 32 ∧ ∀ b ∈ k, b < 256

/-- A well-formed `Opt` value: the shapes the Rust types
`[u8; 100]`, `[Pubkey; 30]` and `u8` impose. -/
def Opt.Valid (o : Opt) : Prop :=
  KeyValid o.belongs_to ∧ o.belongs_idx < 256 ∧
    o.name.length = 100 ∧ (∀ b ∈ o.name, b < 256) ∧
    o.voters.length = 30 ∧ (∀ v ∈ o.voters, KeyValid v) ∧
    o.current_voter_index < 256

/-- A well-formed `Topic` value: the shapes the Rust types impose. -/
def Topic.Valid (t : Topic) : Prop :=
  t.name.length = 100 ∧ (∀ b ∈ t.name, b < 256) ∧
    t.options.length = 10 ∧ (∀ o ∈ t.options, o.Valid) ∧
    t.opt_current_idx < 256 ∧ KeyValid t.owner ∧ t.result_idx < 256

instance : DecidablePred KeyValid := fun k => by
  unfold KeyValid; infer_instance

instance : DecidablePred Opt.Valid := fun o => by
  unfold Opt.Valid; infer_instance

instance : DecidablePred Topic.Valid := fun t => by
  unfold Topic.Valid; infer_instance

/-- One successful processor operation at the state level: some choice of
operation and arguments whose body maps `t` to `t2`.  (The account checks
of the processor do not touch the state, so a successful call is exactly a
successful body.) -/
inductive StepOp (t t2 : Topic) : Prop where
  | create (topicKey ownerKey topicName optionName : Bytes)
      (h : createTopicBody topicKey ownerKey topicName optionName t = .ok t2)
  | add (topicKey optionName : Bytes)
      (h : addOptionBody topicKey optionName t = .ok t2)
  | vote (voterKey : Bytes) (opt_idx : Nat)
      (h : voteBody voterKey opt_idx t = .ok t2)
  | finish (ownerKey : Bytes)
      (h : finishBody ownerKey t = .ok t2)

/-- Topics reachable from the uninitialized (all-zero) state by sequences
of successful operations. -/
inductive Reachable : Topic → Prop where
  | base : Reachable Topic.zeroTopic
  | step {t t2 : Topic} : Reachable t → StepOp t t2 → Reachable t2

/-- Per-option part of the structural invariant: the voter counter stays
within `0 ..= 29`, the voter array keeps its 30 slots, and the reserved
voter slot at index 29 still holds the zero key it started with (it is
never assigned). -/
def OptInv (o : Opt) : Prop :=
  o.current_voter_index ≤ 29 ∧ o.voters.length = 30 ∧
    o.voters.getD 29 [] = List.replicate 32 0

/-- The structural invariant of claim C7: bounded counters, and the
reserved option slot at index 9 still holds the field values it started
with (no `add_option` assignment ever targets it), with every reserved
voter slot at index 29 likewise untouched. -/
def TopicInv (t : Topic) : Prop :=
  t.opt_current_idx ≤ 9 ∧ t.options.length = 10 ∧
    (∀ o ∈ t.options, OptInv o) ∧
    (t.options.getD 9 Opt.defaultOpt).belongs_to = List.replicate 32 0 ∧
    (t.options.getD 9 Opt.defaultOpt).belongs_idx = 0 ∧
    (t.options.getD 9 Opt.defaultOpt).name = List.replicate 100 0

instance : DecidablePred OptInv := fun o => by
  unfold OptInv; infer_instance

instance : DecidablePred TopicInv := fun t => by
  unfold TopicInv; infer_instance

/-- Iterated successful AddOption bodies, used by claim C8; each element of
`adds` is a `(topic key, option name)` argument pair. -/
def applyAdds : List (Bytes × Bytes) → Topic → Except ProgErr Topic
  | [], t => .ok t
  | (k, nm) :: rest, t =>
    match addOptionBody k nm t with
    | .error e => .error e
    | .ok t2 => applyAdds rest t2

/-- Modelled from the spec: the winner a correct FinishTopic should
report — the index of the option with the highest voter count among the
populated options (indices below `opt_current_idx`), ties broken by the
lowest index.  The source hardcodes `result_idx = 1` instead; this
definition exists to compare the two. -/
def specWinner (t : Topic) : Nat :=
  (List.range t.opt_current_idx).foldl
    (fun best i =>
      if (t.options.getD best Opt.defaultOpt).current_voter_index <
          (t.options.getD i Opt.defaultOpt).current_voter_index
      then i else best)
    0

/-- The owner key of the concrete finished-topic scenario of claim C1. -/
def c1Owner : Bytes := List.replicate 32 7

/-- Concrete populated option with two recorded voters. -/
def c1Opt0 : Opt :=
  { belongs_to := List.replicate 32 9
    belongs_idx := 0
    name := strPack [97] (List.replicate 100 0)
    voters := ((List.replicate 30 (List.replicate 32 0)).set 0 (List.replicate 32 1)).set 1
        (List.replicate 32 2)
    current_voter_index := 2 }

/-- Concrete populated option with one recorded voter. -/
def c1Opt1 : Opt :=
  { belongs_to := List.replicate 32 9
    belongs_idx := 1
    name := strPack [98] (List.replicate 100 0)
    voters := (List.replicate 30 (List.replicate 32 0)).set 0 (List.replicate 32 3)
    current_voter_index := 1 }

/-- Concrete Open topic for claim C1: two populated options, option 0 has
two voters, option 1 has one. -/
def c1Topic : Topic :=
  { name := strPack [99] (List.replicate 100 0)
    options := ((List.replicate 10 Opt.defaultOpt).set 0 c1Opt0).set 1 c1Opt1
    opt_current_idx := 2
    owner := c1Owner
    result_idx := 0
    is_finished := false }

/-- Well-formedness of an instruction value as built from Rust data: text
payloads are the bytes of `&str` values (valid UTF-8), `opt_idx` is a `u8`,
and — the amendment claim C9 needs — the CreateTopic topic name does not
contain the delimiter byte. -/
def TopicInstruction.WellFormed : TopicInstruction → Prop
  | .createTopic topicName optionName =>
      utf8Valid topicName = true ∧ utf8Valid optionName = true ∧ barByte ∉ topicName
  | .addOption optionName => utf8Valid optionName = true
  | .voteTopic b => b < 256
  | .finishTopic => True

instance : DecidablePred TopicInstruction.WellFormed := fun i => by
  cases i <;> (dsimp [TopicInstruction.WellFormed]; infer_instance)

/-- Concrete Open topic with no populated options, used to instantiate the
vote-at-the-first-unpopulated-slot theorem. -/
def c6OpenTopic : Topic :=
  { name := strPack [110] (List.replicate 100 0)
    options := List.replicate 10 Opt.defaultOpt
    opt_current_idx := 0
    owner := List.replicate 32 0
    result_idx := 0
    is_finished := false }

/-- The topic a successful CreateTopic with topic name `[116]`, option name
`[111]`, topic key `replicate 32 9` and owner key `replicate 32 7` produces
from the all-zero state. -/
def c8T0 : Topic :=
  { name := strPack [116] (List.replicate 100 0)
    options := (List.replicate 10 Opt.defaultOpt).set 0 (Opt.new (List.replicate 32 9) 0 [111])
    opt_current_idx := 1
    owner := List.replicate 32 7
    result_idx := 0
    is_finished := false }

theorem drop_len_add_append (a b : Bytes) (k : Nat) :
    (a ++ b).drop (a.length + k) = b.drop k := by
  induction a with
  | nil => simp
  | cons x xs ih => simp [List.length_cons, Nat.add_right_comm, ih]

theorem drop_add_append (a b : Bytes) (n k : Nat) (h : a.length = n) :
    (a ++ b).drop (n + k) = b.drop k := by
  subst h; exact drop_len_add_append a b k

theorem runBody_error_frame (checks : Option ProgErr) (body : Topic → Except ProgErr Topic)
    (buf : Bytes) (e : ProgErr) (h : (runBody checks body buf).1 = some e) :
    (runBody checks body buf).2 = buf := by
  unfold runBody at h ⊢
  cases checks with
  | some e2 => rfl
  | none =>
    cases hu : Topic.unpack_from_slice buf with
    | none => simp [hu]
    | some t =>
      cases hb : body t with
      | error e2 => simp [hu, hb]
      | ok t2 =>
        cases hp : t2.pack_into_slice buf with
        | none => simp [hu, hb, hp]
        | some out => simp [hu, hb, hp] at h

/-- C1: after a successful FinishTopic by the owner on an Open topic, the
claim says `result_idx` equals the argmax of the populated options' voter
counts (ties to the lowest index).  The code instead hardcodes
`result_idx = 1`: on the concrete Open topic `c1Topic` (two populated
options, option 0 with two voters, option 1 with one) the owner's
FinishTopic succeeds, sets `is_finished` and writes `result_idx = 1`,
while the spec's winner is option 0. -/
theorem c1_finalize_hardcodes_result_idx :
    finishBody c1Owner c1Topic =
      .ok { c1Topic with is_finished := true, result_idx := 1 } ∧
    specWinner c1Topic = 0 ∧
    strUnpack c1Topic.name ≠ [] ∧ c1Topic.is_finished = false :=
  ⟨by decide, by decide, by decide, rfl⟩

/-- C2: the state gate of AddOption, VoteTopic and FinishTopic tests
`topic.name.is_empty()` on the raw `[u8; 100]` array, which is always
false, so an uninitialized topic (name decodes to the empty string) is not
rejected with `InvalidAccountData`: all three operation bodies succeed on
the all-zero topic. -/
theorem c2_uninitialized_gate_is_dead :
    strUnpack Topic.zeroTopic.name = [] ∧
    isOkE (addOptionBody (List.replicate 32 3) [97] Topic.zeroTopic) = true ∧
    isOkE (voteBody (List.replicate 32 4) 0 Topic.zeroTopic) = true ∧
    isOkE (finishBody (List.replicate 32 0) Topic.zeroTopic) = true :=
  ⟨by decide, by decide, by decide, by decide⟩

/-- C3 counterexample: the input `[0]` is non-empty and its tag is in
{0,1,2,3}, yet decode returns `InvalidInstructionData` rather than an
operation; and the input `[2]` (tag 2, empty payload) makes the source
panic (index out of bounds) rather than return an operation. -/
theorem c3_counterexample :
    TopicInstruction.unpack [0] = .error .invalidInstructionData ∧
    TopicInstruction.unpack [2] = .error .aborted :=
  ⟨by decide, by decide⟩

/-- C9 counterexample: encoding `CreateTopic` with a topic name that
contains the delimiter byte and decoding the result yields a different
instruction — the decoder splits at the first delimiter. -/
theorem c9_counterexample :
    TopicInstruction.unpack
        (TopicInstruction.pack (.createTopic [97, 124, 98] [99])) =
      .ok (.createTopic [97] [98, 124, 99]) ∧
    TopicInstruction.createTopic [97] [98, 124, 99] ≠
      .createTopic [97, 124, 98] [99] :=
  ⟨by decide, by decide⟩

/-- C4: every failing path of every processor operation returns the topic
buffer byte-identical to its pre-call state; re-serialization happens only
as the last step of a successful path. -/
theorem c4_errors_leave_buffer_unchanged (programId : Bytes)
    (i : TopicInstruction) (topicAcc actor : AccInfo) (buf : Bytes)
    (e : ProgErr) (h : (processInstr programId i topicAcc actor buf).1 = some e) :
    (processInstr programId i topicAcc actor buf).2 = buf := by
  cases i <;> exact runBody_error_frame _ _ _ e h

theorem c4_witness :
    (processInstr [] .finishTopic ⟨[], [1], false⟩ ⟨[], [], false⟩ []).2 = [] :=
  c4_errors_leave_buffer_unchanged [] .finishTopic ⟨[], [1], false⟩
    ⟨[], [], false⟩ [] .illegalOwner (by decide)

theorem isEmpty_false_of_length (l : Bytes) (n : Nat) (h : l.length = n) (hn : 0 < n) :
    l.isEmpty = false := by
  cases l with
  | nil => simp at h; omega
  | cons a l => simp

theorem getD_set_self {α : Type} (l : List α) (i : Nat) (v d : α) (h : i < l.length) :
    (l.set i v).getD i d = v := by
  rw [List.getD_eq_getElem _ _ (by simpa using h)]
  simp [List.getElem_set_self]

theorem getD_set_ne {α : Type} (l : List α) (i j : Nat) (v d : α) (h : i ≠ j) :
    (l.set i v).getD j d = l.getD j d := by
  simp [List.getD, List.getElem?_set_ne h]

/-- C6: on an Open topic whose `opt_current_idx` is `n ≤ 9`, a VoteTopic by
an authenticated signer with `opt_idx = n` — the first unpopulated slot —
passes both account checks and succeeds: the index check only rejects
indices strictly greater than `opt_current_idx`, so the voter is recorded
as the first voter of the unpopulated option at index `n`. -/
theorem c6_vote_first_unpopulated_slot (programId : Bytes) (topicAcc voter : AccInfo)
    (t : Topic) (n : Nat)
    (hown : topicAcc.owner = programId) (hsig : voter.is_signer = true)
    (hname : t.name.length = 100) (_hopen : strUnpack t.name ≠ [])
    (hfin : t.is_finished = false)
    (hidx : t.opt_current_idx = n) (hn : n ≤ 9) (hlen : t.options.length = 10)
    (hslot : t.options.getD n Opt.defaultOpt = Opt.defaultOpt) :
    accountChecks programId topicAcc voter = none ∧
    ∃ t2, voteBody voter.key n t = .ok t2 ∧
      (t2.options.getD n Opt.defaultOpt).current_voter_index = 1 ∧
      (t2.options.getD n Opt.defaultOpt).voters.getD 0 [] = voter.key ∧
      t2.opt_current_idx = t.opt_current_idx := by
  have hne : t.name.isEmpty = false := isEmpty_false_of_length t.name 100 hname (by omega)
  have hlt : n < t.options.length := by omega
  constructor
  · simp [accountChecks, hown, hsig]
  · have hopt : t.options[n] = Opt.defaultOpt := by
      rw [← List.getD_eq_getElem t.options Opt.defaultOpt hlt]; exact hslot
    have hav : (t.options[n]).add_voter voter.key =
        .ok { Opt.defaultOpt with
                voters := (List.replicate 30 (List.replicate 32 0)).set 0 voter.key
                current_voter_index := 1 } := by
      rw [hopt]
      simp [Opt.add_voter, Opt.defaultOpt]
    refine ⟨{ t with options := t.options.set n { Opt.defaultOpt with
        voters := (List.replicate 30 (List.replicate 32 0)).set 0 voter.key
        current_voter_index := 1 } }, ?_, ?_, ?_, rfl⟩
    · unfold voteBody Topic.vote
      rw [hne, hfin]
      simp only [Bool.or_self, Bool.false_eq_true, if_false, hidx, Nat.lt_irrefl,
        dif_pos hlt, hav]
    · rw [getD_set_self t.options n _ _ hlt]
    · rw [getD_set_self t.options n _ _ hlt]
      exact getD_set_self _ 0 _ _ (by simp)

theorem c6_vote_witness :
    accountChecks [5] (AccInfo.mk (List.replicate 32 9) [5] true)
        (AccInfo.mk (List.replicate 32 4) [] true) = none ∧
    ∃ t2, voteBody (List.replicate 32 4) 0 c6OpenTopic = .ok t2 ∧
      (t2.options.getD 0 Opt.defaultOpt).current_voter_index = 1 ∧
      (t2.options.getD 0 Opt.defaultOpt).voters.getD 0 [] = List.replicate 32 4 ∧
      t2.opt_current_idx = c6OpenTopic.opt_current_idx :=
  c6_vote_first_unpopulated_slot [5] (AccInfo.mk (List.replicate 32 9) [5] true)
    (AccInfo.mk (List.replicate 32 4) [] true) c6OpenTopic 0 rfl rfl (by decide)
    (by decide) rfl rfl (by omega) (by decide) (by decide)

theorem addOptionBody_ok_shape (k nm : Bytes) (t t2 : Topic)
    (h : addOptionBody k nm t = .ok t2) :
    t2.opt_current_idx = t.opt_current_idx + 1 ∧
    t2.options.length = t.options.length := by
  unfold addOptionBody Topic.add_option at h
  split at h
  · simp at h
  · split at h
    · simp at h
    · split at h
      · injection h with h
        subst h
        simp [List.length_set]
      · simp at h

theorem createTopicBody_ok_idx (tk ow tn on2 : Bytes) (t t2 : Topic)
    (h : createTopicBody tk ow tn on2 t = .ok t2) :
    t2.opt_current_idx = t.opt_current_idx + 1 := by
  unfold createTopicBody Topic.add_option at h
  split at h
  · simp at h
  · split at h
    · simp at h
    · split at h
      · injection h with h
        subst h
        simp [Topic.set_name]
      · simp at h

theorem applyAdds_ok_idx (adds : List (Bytes × Bytes)) (t t2 : Topic)
    (h : applyAdds adds t = .ok t2) :
    t2.opt_current_idx = t.opt_current_idx + adds.length := by
  induction adds generalizing t with
  | nil =>
    unfold applyAdds at h
    injection h with h
    subst h
    simp
  | cons p rest ih =>
    obtain ⟨k, nm⟩ := p
    unfold applyAdds at h
    cases hb : addOptionBody k nm t with
    | error e => rw [hb] at h; simp at h
    | ok tm =>
      rw [hb] at h
      have h1 := (addOptionBody_ok_shape k nm t tm hb).1
      have h2 := ih tm h
      simp [List.length_cons]
      omega

/-- C8: from a topic with `opt_current_idx = 0`, a successful CreateTopic
leaves `opt_current_idx = 1`; after `n` further successful AddOption calls
`opt_current_idx = n + 1`; and an AddOption attempted at the 9-option cap
fails with `InvalidArgument`, both at the state level and at the processor
level, where the buffer is returned unchanged. -/
theorem c8_option_growth (topicKey ownerKey topicName optionName : Bytes)
    (adds : List (Bytes × Bytes)) (tStart t0 t1 : Topic)
    (hidx0 : tStart.opt_current_idx = 0)
    (hcreate : createTopicBody topicKey ownerKey topicName optionName tStart = .ok t0)
    (hadds : applyAdds adds t0 = .ok t1) :
    t0.opt_current_idx = 1 ∧
    t1.opt_current_idx = adds.length + 1 ∧
    (∀ (t : Topic) (k nm : Bytes), t.options.length = 10 → t.opt_current_idx = 9 →
      t.name.isEmpty = false → t.is_finished = false →
      addOptionBody k nm t = .error .invalidArgument) ∧
    (∀ (programId : Bytes) (topicAcc actor : AccInfo) (buf : Bytes) (t : Topic) (nm : Bytes),
      accountChecks programId topicAcc actor = none →
      Topic.unpack_from_slice buf = some t →
      t.options.length = 10 → t.opt_current_idx = 9 →
      t.name.isEmpty = false → t.is_finished = false →
      processInstr programId (.addOption nm) topicAcc actor buf =
        (some .invalidArgument, buf)) := by
  have hc := createTopicBody_ok_idx topicKey ownerKey topicName optionName tStart t0 hcreate
  have ha := applyAdds_ok_idx adds t0 t1 hadds
  have hcap : ∀ (t : Topic) (k nm : Bytes), t.options.length = 10 → t.opt_current_idx = 9 →
      t.name.isEmpty = false → t.is_finished = false →
      addOptionBody k nm t = .error .invalidArgument := by
    intro t k nm hlen hidx hne hfin
    unfold addOptionBody Topic.add_option
    rw [hne, hfin]
    simp [hlen, hidx]
  refine ⟨by omega, by omega, hcap, ?_⟩
  intro programId topicAcc actor buf t nm hchecks hu hlen hidx hne hfin
  simp only [processInstr, runBody, hchecks, hu,
    hcap t topicAcc.key nm hlen hidx hne hfin]

theorem c8_option_growth_witness : c8T0.opt_current_idx = 1 ∧ c8T0.opt_current_idx = 0 + 1 :=
  ⟨(c8_option_growth (List.replicate 32 9) (List.replicate 32 7) [116] [111] []
      Topic.zeroTopic c8T0 c8T0 (by decide) (by decide) (by decide)).1,
   (c8_option_growth (List.replicate 32 9) (List.replicate 32 7) [116] [111] []
      Topic.zeroTopic c8T0 c8T0 (by decide) (by decide) (by decide)).2.1⟩

theorem findIdx_append_bar (tn on2 : Bytes) (h : barByte ∉ tn) :
    (tn ++ barByte :: on2).findIdx (fun b => b == barByte) = tn.length := by
  induction tn with
  | nil => simp [List.findIdx_cons]
  | cons a l ih =>
    have ha : (a == barByte) = false := by
      simp only [beq_eq_false_iff_ne, ne_eq]
      intro hc
      exact h (by simp [hc])
    have hl : barByte ∉ l := fun hm => h (List.mem_cons_of_mem a hm)
    simp [List.findIdx_cons, ha, ih hl]

theorem firstBar_append (tn on2 : Bytes) (h : barByte ∉ tn) :
    firstBar (tn ++ barByte :: on2) = tn.length := by
  unfold firstBar
  rw [findIdx_append_bar tn on2 h]
  have hne : tn.length ≠ (tn ++ barByte :: on2).length := by
    simp only [List.length_append, List.length_cons]
    omega
  simp [hne]

theorem firstBar_lt_length (r : Bytes) (h : r ≠ []) : firstBar r < r.length := by
  unfold firstBar
  have hlen : 0 < r.length := List.length_pos.mpr h
  by_cases hj : r.findIdx (fun b => b == barByte) = r.length
  · simp [hj, hlen]
  · simp only [hj, if_false]
    exact lt_of_le_of_ne (List.findIdx_le_length _) hj

/-- C9 (amended): for every well-formed instruction value — text payloads
valid UTF-8 and the CreateTopic topic name free of the delimiter byte —
decoding the bytes produced by encoding yields the original instruction. -/
theorem c9_encode_decode (i : TopicInstruction) (hwf : i.WellFormed) :
    TopicInstruction.unpack (TopicInstruction.pack i) = .ok i := by
  cases i with
  | createTopic tn on2 =>
    obtain ⟨h1, hb2, h3⟩ := hwf
    have hsplit : firstBar (tn ++ barByte :: on2) = tn.length := firstBar_append tn on2 h3
    simp only [TopicInstruction.pack, TopicInstruction.unpack, hsplit, List.take_left,
      List.drop_left, h1, hb2, Bool.and_self, if_true]
  | addOption on2 =>
    have h2 : utf8Valid on2 = true := hwf
    simp [TopicInstruction.pack, TopicInstruction.unpack, h2]
  | voteTopic b => rfl
  | finishTopic => rfl

theorem c9_encode_decode_witness :
    TopicInstruction.unpack (TopicInstruction.pack (.createTopic [97] [98])) =
      .ok (.createTopic [97] [98]) :=
  c9_encode_decode (.createTopic [97] [98]) (by decide)

theorem unpack_tag0_cons (r : Bytes) (hr : r ≠ []) :
    TopicInstruction.unpack (0 :: r) =
      (if utf8Valid (r.take (firstBar r)) && utf8Valid ((r.drop (firstBar r)).tail) then
        .ok (.createTopic (r.take (firstBar r)) ((r.drop (firstBar r)).tail))
      else .error .aborted) := by
  have hlt : firstBar r < r.length := firstBar_lt_length r hr
  have hdrop : r.drop (firstBar r) ≠ [] := by
    intro hc
    rw [List.drop_eq_nil_iff] at hc
    omega
  cases hd : r.drop (firstBar r) with
  | nil => exact absurd hd hdrop
  | cons x on2 =>
    simp only [TopicInstruction.unpack, hd, List.tail_cons]

/-- C3 (amended): decode returns `InvalidInstructionData` exactly when the
input is empty, its tag byte exceeds 3, or the input is the single byte 0;
tag 0 with a non-empty payload returns the CreateTopic split at the first
delimiter byte when both parts are valid UTF-8 and panics otherwise; tag 1
returns AddOption of the payload when it is valid UTF-8 and panics
otherwise; tag 2 returns VoteTopic of the first payload byte and panics on
an empty payload; tag 3 returns FinishTopic. -/
theorem c3_decode_characterization (input : Bytes) :
    (TopicInstruction.unpack input = .error .invalidInstructionData ↔
      input = [] ∨ (∃ t r, input = t :: r ∧ 3 < t) ∨ input = [0]) ∧
    (∀ r, input = 0 :: r → r ≠ [] →
      (utf8Valid (r.take (firstBar r)) && utf8Valid ((r.drop (firstBar r)).tail)) = true →
      TopicInstruction.unpack input =
        .ok (.createTopic (r.take (firstBar r)) ((r.drop (firstBar r)).tail))) ∧
    (∀ r, input = 0 :: r → r ≠ [] →
      (utf8Valid (r.take (firstBar r)) && utf8Valid ((r.drop (firstBar r)).tail)) = false →
      TopicInstruction.unpack input = .error .aborted) ∧
    (∀ r, input = 1 :: r → utf8Valid r = true →
      TopicInstruction.unpack input = .ok (.addOption r)) ∧
    (∀ r, input = 1 :: r → utf8Valid r = false →
      TopicInstruction.unpack input = .error .aborted) ∧
    (∀ b r, input = 2 :: b :: r → TopicInstruction.unpack input = .ok (.voteTopic b)) ∧
    (input = [2] → TopicInstruction.unpack input = .error .aborted) ∧
    (∀ r, input = 3 :: r → TopicInstruction.unpack input = .ok .finishTopic) := by
  rcases input with _ | ⟨t, r⟩
  · refine ⟨by simp [TopicInstruction.unpack], ?_, ?_, ?_, ?_, ?_, ?_, ?_⟩ <;> intros <;> simp_all
  rcases t with _ | _ | _ | _ | n
  · rcases r with _ | ⟨x, xs⟩
    · refine ⟨by simp [TopicInstruction.unpack], ?_, ?_, ?_, ?_, ?_, ?_, ?_⟩ <;> intros <;> simp_all
    · have hr : (x :: xs : Bytes) ≠ [] := by simp
      have hu := unpack_tag0_cons (x :: xs) hr
      constructor
      · rw [hu]
        constructor
        · intro hiid
          by_cases hv : (utf8Valid ((x :: xs).take (firstBar (x :: xs))) &&
              utf8Valid (((x :: xs).drop (firstBar (x :: xs))).tail)) = true
          · rw [if_pos hv] at hiid; cases hiid
          · rw [if_neg hv] at hiid; cases hiid
        · intro hrhs
          rcases hrhs with hc | ⟨t2, r2, he, ht⟩ | hc
          · cases hc
          · injection he with e1 e2; omega
          · cases hc
      refine ⟨?_, ?_, ?_, ?_, ?_, ?_, ?_⟩
      · intro r2 he hr2 hv
        injection he with h1 h2
        subst h2
        rw [hu, if_pos hv]
      · intro r2 he hr2 hv
        injection he with h1 h2
        subst h2
        have hv2 : ¬((utf8Valid ((x :: xs).take (firstBar (x :: xs))) &&
            utf8Valid (((x :: xs).drop (firstBar (x :: xs))).tail)) = true) := by
          rw [hv]
          simp
        rw [hu, if_neg hv2]
      · intro r2 he hv
        injection he with h1 h2
        omega
      · intro r2 he hv
        injection he with h1 h2
        omega
      · intro b r2 he
        injection he with h1 h2
        omega
      · intro he
        injection he with h1 h2
        omega
      · intro r2 he
        injection he with h1 h2
        omega
  · refine ⟨?_, ?_, ?_, ?_, ?_, ?_, ?_, ?_⟩
    · constructor
      · intro hiid
        by_cases hv : utf8Valid r = true
        · simp [TopicInstruction.unpack, hv] at hiid
        · simp [TopicInstruction.unpack, hv] at hiid
      · intro hrhs
        rcases hrhs with hc | ⟨t2, r2, he, ht⟩ | hc
        · cases hc
        · injection he with e1 e2; omega
        · cases hc
    all_goals (intros; simp_all [TopicInstruction.unpack])
  · rcases r with _ | ⟨b, bs⟩
    · refine ⟨by simp [TopicInstruction.unpack], ?_, ?_, ?_, ?_, ?_, ?_, ?_⟩ <;>
        (intros; simp_all [TopicInstruction.unpack])
    · refine ⟨by simp [TopicInstruction.unpack], ?_, ?_, ?_, ?_, ?_, ?_, ?_⟩ <;>
        (intros; simp_all [TopicInstruction.unpack])
  · refine ⟨by simp [TopicInstruction.unpack], ?_, ?_, ?_, ?_, ?_, ?_, ?_⟩ <;>
      (intros; simp_all [TopicInstruction.unpack])
  · refine ⟨?_, ?_, ?_, ?_, ?_, ?_, ?_, ?_⟩
    · simp only [TopicInstruction.unpack]
      constructor
      · intro
        right; left
        exact ⟨n + 4, r, rfl, by omega⟩
      · intro
        trivial
    all_goals (intros; simp_all [TopicInstruction.unpack])

theorem c3_decode_characterization_witness :
    TopicInstruction.unpack [1, 97] = .ok (.addOption [97]) :=
  (c3_decode_characterization [1, 97]).2.2.2.1 [97] rfl (by decide)

theorem flatten_keys_length (ks : List Bytes) (h : ∀ v ∈ ks, v.length = 32) :
    ks.flatten.length = 32 * ks.length := by
  induction ks with
  | nil => simp
  | cons k rest ih =>
    have hk : k.length = 32 := h k (by simp)
    have hr := ih (fun v hv => h v (by simp [hv]))
    simp [List.flatten_cons, List.length_append, hk, hr, Nat.mul_succ]
    omega

theorem Opt.pack_length (o : Opt) (h : o.Valid) : (Opt.pack o).length = 1094 := by
  obtain ⟨⟨hb, -⟩, -, hn, -, hv, hvk, -⟩ := h
  have hfl : o.voters.flatten.length = 32 * o.voters.length :=
    flatten_keys_length o.voters (fun v hv2 => (hvk v hv2).1)
  simp [Opt.pack, List.length_append, hb, hn, hfl, hv]

theorem packed_options_length (os : List Opt) (h : ∀ o ∈ os, o.Valid) :
    ((os.map Opt.pack).flatten).length = 1094 * os.length := by
  induction os with
  | nil => simp
  | cons o rest ih =>
    have ho : (Opt.pack o).length = 1094 := Opt.pack_length o (h o (by simp))
    have hr := ih (fun o2 ho2 => h o2 (by simp [ho2]))
    simp [List.flatten_cons, List.length_append, ho, hr, Nat.mul_succ]
    omega

/-- C10: packing a valid Topic into a 12168-byte destination succeeds, and
the write is framed exactly as the source's `pack_into_slice`: the
`is_finished` byte at offset 11074 keeps its previous value when the flag
is false and is set to 1 when the flag is true, and every byte from offset
11075 on is left untouched. -/
theorem c10_pack_frame (t : Topic) (dst : Bytes) (hv : t.Valid)
    (hlen : dst.length = 12168) :
    ∃ out, t.pack_into_slice dst = some out ∧
      (t.is_finished = false → (out.drop 11074).headD 0 = (dst.drop 11074).headD 0) ∧
      (t.is_finished = true → (out.drop 11074).headD 0 = 1) ∧
      out.drop 11075 = dst.drop 11075 := by
  obtain ⟨hnm, -, hol, hov, -, ⟨how, -⟩, -⟩ := hv
  have hJ : ((t.options.map Opt.pack).flatten).length = 10940 := by
    rw [packed_options_length t.options hov, hol]
  have hbuf : (11075 : Nat) ≤ dst.length := by omega
  refine ⟨_, by unfold Topic.pack_into_slice; rw [if_pos hbuf], ?_, ?_, ?_⟩
  all_goals
    set f : Nat := if t.is_finished then 1 else (dst.drop 11074).headD 0 with hf
    set Z : Bytes := dst.drop 11075 with hZ
  · intro hfin
    have hA : t.name ++ ((t.options.map Opt.pack).flatten ++ ([t.opt_current_idx] ++
        (t.owner ++ ([t.result_idx] ++ ([f] ++ Z))))) =
        (t.name ++ (t.options.map Opt.pack).flatten ++ [t.opt_current_idx] ++
          t.owner ++ [t.result_idx]) ++ ([f] ++ Z) := by
      simp [List.append_assoc]
    have hlenA : (t.name ++ (t.options.map Opt.pack).flatten ++ [t.opt_current_idx] ++
        t.owner ++ [t.result_idx]).length = 11074 := by
      simp [List.length_append, hnm, hJ, how]
    rw [hA, List.drop_left' hlenA]
    simp [hf, hfin]
  · intro hfin
    have hA : t.name ++ ((t.options.map Opt.pack).flatten ++ ([t.opt_current_idx] ++
        (t.owner ++ ([t.result_idx] ++ ([f] ++ Z))))) =
        (t.name ++ (t.options.map Opt.pack).flatten ++ [t.opt_current_idx] ++
          t.owner ++ [t.result_idx]) ++ ([f] ++ Z) := by
      simp [List.append_assoc]
    have hlenA : (t.name ++ (t.options.map Opt.pack).flatten ++ [t.opt_current_idx] ++
        t.owner ++ [t.result_idx]).length = 11074 := by
      simp [List.length_append, hnm, hJ, how]
    rw [hA, List.drop_left' hlenA]
    simp [hf, hfin]
  · have hA : t.name ++ ((t.options.map Opt.pack).flatten ++ ([t.opt_current_idx] ++
        (t.owner ++ ([t.result_idx] ++ ([f] ++ Z))))) =
        (t.name ++ (t.options.map Opt.pack).flatten ++ [t.opt_current_idx] ++
          t.owner ++ [t.result_idx] ++ [f]) ++ Z := by
      simp [List.append_assoc]
    have hlenA : (t.name ++ (t.options.map Opt.pack).flatten ++ [t.opt_current_idx] ++
        t.owner ++ [t.result_idx] ++ [f]).length = 11075 := by
      simp [List.length_append, hnm, hJ, how]
    rw [hA, List.drop_left' hlenA]

theorem c10_pack_frame_witness :
    ∃ out, c1Topic.pack_into_slice (List.replicate 12168 0) = some out ∧
      (c1Topic.is_finished = false →
        (out.drop 11074).headD 0 = ((List.replicate 12168 0 : Bytes).drop 11074).headD 0) ∧
      (c1Topic.is_finished = true → (out.drop 11074).headD 0 = 1) ∧
      out.drop 11075 = (List.replicate 12168 0 : Bytes).drop 11075 :=
  c10_pack_frame c1Topic (List.replicate 12168 0) (by decide)
    (by rw [List.length_replicate])

theorem unpackKeys_flatten (ks : List Bytes) (rest : Bytes) (h : ∀ v ∈ ks, v.length = 32) :
    unpackKeys ks.length (ks.flatten ++ rest) = ks := by
  induction ks generalizing rest with
  | nil => simp [unpackKeys]
  | cons k kr ih =>
    have hk : k.length = 32 := h k (by simp)
    simp only [List.length_cons, unpackKeys, List.flatten_cons, List.append_assoc]
    rw [List.take_left' hk, List.drop_left' hk]
    exact congrArg (k :: ·) (ih rest (fun v hv => h v (by simp [hv])))

theorem Opt.unpackCore_pack (o : Opt) (h : o.Valid) : Opt.unpackCore (Opt.pack o) = o := by
  obtain ⟨⟨hb, -⟩, -, hn, -, hv, hvk, -⟩ := h
  have hkeys : ∀ v ∈ o.voters, v.length = 32 := fun v hv2 => (hvk v hv2).1
  have hfl : o.voters.flatten.length = 960 := by
    rw [flatten_keys_length o.voters hkeys, hv]
  have e32 : (Opt.pack o).take 32 = o.belongs_to := List.take_left' hb
  have e33 : (Opt.pack o).drop 32 =
      [o.belongs_idx] ++ (o.name ++ (o.voters.flatten ++ [o.current_voter_index])) :=
    List.drop_left' hb
  have ename : (Opt.pack o).drop 33 =
      o.name ++ (o.voters.flatten ++ [o.current_voter_index]) := by
    have hA : Opt.pack o = (o.belongs_to ++ [o.belongs_idx]) ++
        (o.name ++ (o.voters.flatten ++ [o.current_voter_index])) := by
      simp [Opt.pack, List.append_assoc]
    rw [hA, List.drop_left' (by simp [hb])]
  have evoters : (Opt.pack o).drop 133 =
      o.voters.flatten ++ [o.current_voter_index] := by
    have hA : Opt.pack o = (o.belongs_to ++ [o.belongs_idx] ++ o.name) ++
        (o.voters.flatten ++ [o.current_voter_index]) := by
      simp [Opt.pack, List.append_assoc]
    rw [hA, List.drop_left' (by simp [hb, hn])]
  have ecvi : (Opt.pack o).drop 1093 = [o.current_voter_index] := by
    have hA : Opt.pack o = (o.belongs_to ++ [o.belongs_idx] ++ o.name ++ o.voters.flatten) ++
        [o.current_voter_index] := by
      simp [Opt.pack, List.append_assoc]
    rw [hA, List.drop_left' (by simp [hb, hn, hfl])]
  have ekeys : unpackKeys 30 ((Opt.pack o).drop 133) = o.voters := by
    rw [evoters, ← hv]
    exact unpackKeys_flatten o.voters [o.current_voter_index] hkeys
  unfold Opt.unpackCore
  rw [e32, e33, ename, ecvi, ekeys]
  rcases o with ⟨bt, bi, nm2, vs, ci⟩
  simp [List.take_left' hn]

theorem unpackOpts_flatten (os : List Opt) (rest : Bytes) (h : ∀ o ∈ os, o.Valid) :
    unpackOpts os.length ((os.map Opt.pack).flatten ++ rest) = os := by
  induction os generalizing rest with
  | nil => simp [unpackOpts]
  | cons o or2 ih =>
    have ho : o.Valid := h o (by simp)
    have hl : (Opt.pack o).length = 1094 := Opt.pack_length o ho
    simp only [List.length_cons, unpackOpts, List.map_cons, List.flatten_cons,
      List.append_assoc]
    rw [List.take_left' hl, List.drop_left' hl, Opt.unpackCore_pack o ho]
    exact congrArg (o :: ·) (ih rest (fun o2 ho2 => h o2 (by simp [ho2])))

/-- C5: packing any valid Topic value into a fresh zero-initialized buffer
and unpacking the result yields the original value; pack is a function of
the value and the destination, so equal values produce identical output
bytes, including the zero-filled unused option and voter slots. -/
theorem c5_pack_unpack_roundtrip (t : Topic) (h : t.Valid) :
    (t.pack_into_slice (List.replicate 12168 0)).bind Topic.unpack_from_slice = some t ∧
    (∀ t2 : Topic, t2 = t →
      t2.pack_into_slice (List.replicate 12168 0) =
        t.pack_into_slice (List.replicate 12168 0)) := by
  refine ⟨?_, fun t2 he => by rw [he]⟩
  obtain ⟨hnm, -, hol, hov, -, ⟨how, -⟩, -⟩ := h
  have hJ : ((t.options.map Opt.pack).flatten).length = 10940 := by
    rw [packed_options_length t.options hov, hol]
  have hzlen : (List.replicate (12168:Nat) (0:Nat)).length = 12168 := by
    rw [List.length_replicate]
  have hble : (11075:Nat) ≤ (List.replicate (12168:Nat) (0:Nat)).length := by omega
  have hz74 : (((List.replicate (12168:Nat) (0:Nat)).drop 11074).headD 0) = 0 := by
    rw [List.drop_replicate]
    rfl
  set f : Nat := if t.is_finished then 1
      else ((List.replicate (12168:Nat) (0:Nat)).drop 11074).headD 0 with hf
  set Z : Bytes := (List.replicate (12168:Nat) (0:Nat)).drop 11075 with hZ
  have hZlen : Z.length = 1093 := by
    rw [hZ, List.length_drop, List.length_replicate]
  have hpack : t.pack_into_slice (List.replicate 12168 0) =
      some (t.name ++ ((t.options.map Opt.pack).flatten ++ ([t.opt_current_idx] ++
        (t.owner ++ ([t.result_idx] ++ ([f] ++ Z)))))) := by
    unfold Topic.pack_into_slice
    rw [if_pos hble]
  rw [hpack, Option.some_bind]
  set P : Bytes := t.name ++ ((t.options.map Opt.pack).flatten ++ ([t.opt_current_idx] ++
    (t.owner ++ ([t.result_idx] ++ ([f] ++ Z))))) with hP
  have hPlen : P.length = 12168 := by
    rw [hP]
    simp only [List.length_append, List.length_cons, List.length_nil, hnm, hJ, how, hZlen]
  have e100t : P.take 100 = t.name := by rw [hP]; exact List.take_left' hnm
  have e100 : P.drop 100 = (t.options.map Opt.pack).flatten ++ ([t.opt_current_idx] ++
      (t.owner ++ ([t.result_idx] ++ ([f] ++ Z)))) := by
    rw [hP]; exact List.drop_left' hnm
  have eopts : unpackOpts 10 (P.drop 100) = t.options := by
    rw [e100, ← hol]
    exact unpackOpts_flatten t.options _ hov
  have e11040 : P.drop 11040 = [t.opt_current_idx] ++
      (t.owner ++ ([t.result_idx] ++ ([f] ++ Z))) := by
    have hA : P = (t.name ++ (t.options.map Opt.pack).flatten) ++
        ([t.opt_current_idx] ++ (t.owner ++ ([t.result_idx] ++ ([f] ++ Z)))) := by
      rw [hP]; simp [List.append_assoc]
    rw [hA, List.drop_left' (by simp [hnm, hJ])]
  have e11041 : P.drop 11041 = t.owner ++ ([t.result_idx] ++ ([f] ++ Z)) := by
    have hA : P = (t.name ++ (t.options.map Opt.pack).flatten ++ [t.opt_current_idx]) ++
        (t.owner ++ ([t.result_idx] ++ ([f] ++ Z))) := by
      rw [hP]; simp [List.append_assoc]
    rw [hA, List.drop_left' (by simp [hnm, hJ])]
  have e11073 : P.drop 11073 = [t.result_idx] ++ ([f] ++ Z) := by
    have hA : P = (t.name ++ (t.options.map Opt.pack).flatten ++ [t.opt_current_idx] ++
        t.owner) ++ ([t.result_idx] ++ ([f] ++ Z)) := by
      rw [hP]; simp [List.append_assoc]
    rw [hA, List.drop_left' (by simp [hnm, hJ, how])]
  have e11074 : P.drop 11074 = [f] ++ Z := by
    have hA : P = (t.name ++ (t.options.map Opt.pack).flatten ++ [t.opt_current_idx] ++
        t.owner ++ [t.result_idx]) ++ ([f] ++ Z) := by
      rw [hP]; simp [List.append_assoc]
    rw [hA, List.drop_left' (by simp [hnm, hJ, how])]
  unfold Topic.unpack_from_slice
  rw [if_pos (by omega : (11075:Nat) ≤ P.length)]
  rw [e100t, eopts, e11040, e11041, e11073, e11074]
  rcases t with ⟨nm, os, idx, ow, r, fin⟩
  simp only [List.singleton_append, List.headD_cons, List.take_left' how, Option.some.injEq,
    Topic.mk.injEq, true_and, and_true]
  cases fin with
  | true => rw [hf]; rfl
  | false =>
    rw [hf]
    show ((((List.replicate (12168:Nat) (0:Nat)).drop 11074).headD 0 : Nat) == 1) = false
    rw [hz74]
    decide

theorem c5_pack_unpack_roundtrip_witness :
    (c1Topic.pack_into_slice (List.replicate 12168 0)).bind Topic.unpack_from_slice =
      some c1Topic ∧
    (∀ t2 : Topic, t2 = c1Topic →
      t2.pack_into_slice (List.replicate 12168 0) =
        c1Topic.pack_into_slice (List.replicate 12168 0)) :=
  c5_pack_unpack_roundtrip c1Topic (by decide)

theorem add_voter_inv (o : Opt) (v : Bytes) (o2 : Opt) (h : o.add_voter v = .ok o2)
    (hi : OptInv o) :
    OptInv o2 ∧ o2.belongs_to = o.belongs_to ∧ o2.belongs_idx = o.belongs_idx ∧
      o2.name = o.name := by
  obtain ⟨hc, hl, h29⟩ := hi
  unfold Opt.add_voter at h
  split at h
  · simp at h
  · split at h
    · injection h with h
      subst h
      refine ⟨⟨?_, ?_, ?_⟩, rfl, rfl, rfl⟩
      · simp only []
        omega
      · simp [List.length_set, hl]
      · simp only []
        rw [getD_set_ne _ _ _ _ _ (by omega)]
        exact h29
    · simp at h

theorem OptInv_new (k : Bytes) (i : Nat) (nm : Bytes) : OptInv (Opt.new k i nm) := by
  refine ⟨by simp [Opt.new], by simp [Opt.new], ?_⟩
  show (List.replicate 30 (List.replicate 32 0)).getD 29 [] = List.replicate 32 0
  rw [List.getD_eq_getElem _ _ (by simp)]
  simp [List.getElem_replicate]

theorem add_option_inv (t : Topic) (k nm : Bytes) (t2 : Topic)
    (h : t.add_option k nm = .ok t2) (hi : TopicInv t) : TopicInv t2 := by
  obtain ⟨hidx, hlen, hall, hb9, hbi9, hn9⟩ := hi
  unfold Topic.add_option at h
  rw [hlen] at h
  split at h
  · simp at h
  · split at h
    · injection h with h
      subst h
      have hne9 : t.opt_current_idx ≠ 9 := by omega
      refine ⟨by simp only []; omega, by simp [List.length_set, hlen], ?_, ?_, ?_, ?_⟩
      · intro o ho
        rcases List.mem_or_eq_of_mem_set ho with ho2 | ho2
        · exact hall o ho2
        · subst ho2
          exact OptInv_new k t.opt_current_idx nm
      · simp only []
        rw [getD_set_ne _ _ _ _ _ hne9]
        exact hb9
      · simp only []
        rw [getD_set_ne _ _ _ _ _ hne9]
        exact hbi9
      · simp only []
        rw [getD_set_ne _ _ _ _ _ hne9]
        exact hn9
    · simp at h

theorem vote_inv (t : Topic) (vk : Bytes) (i : Nat) (t2 : Topic)
    (h : t.vote i vk = .ok t2) (hi : TopicInv t) : TopicInv t2 := by
  obtain ⟨hidx, hlen, hall, hb9, hbi9, hn9⟩ := hi
  unfold Topic.vote at h
  split at h
  · simp at h
  · split at h
    · rename_i hlt
      cases hav : (t.options[i]).add_voter vk with
      | error e => rw [hav] at h; simp at h
      | ok o2 =>
        rw [hav] at h
        injection h with h
        subst h
        have hmem : t.options[i] ∈ t.options := List.getElem_mem hlt
        have hoinv := add_voter_inv _ vk o2 hav (hall _ hmem)
        refine ⟨by simp only []; omega, by simp [List.length_set, hlen], ?_, ?_, ?_, ?_⟩
        · intro o ho
          rcases List.mem_or_eq_of_mem_set ho with ho2 | ho2
          · exact hall o ho2
          · subst ho2
            exact hoinv.1
        · simp only []
          by_cases h9 : i = 9
          · subst h9
            rw [getD_set_self _ _ _ _ hlt, hoinv.2.1,
              List.getD_eq_getElem _ Opt.defaultOpt (by omega)] at *
            exact hb9
          · rw [getD_set_ne _ _ _ _ _ h9]
            exact hb9
        · simp only []
          by_cases h9 : i = 9
          · subst h9
            rw [getD_set_self _ _ _ _ hlt, hoinv.2.2.1,
              List.getD_eq_getElem _ Opt.defaultOpt (by omega)] at *
            exact hbi9
          · rw [getD_set_ne _ _ _ _ _ h9]
            exact hbi9
        · simp only []
          by_cases h9 : i = 9
          · subst h9
            rw [getD_set_self _ _ _ _ hlt, hoinv.2.2.2,
              List.getD_eq_getElem _ Opt.defaultOpt (by omega)] at *
            exact hn9
          · rw [getD_set_ne _ _ _ _ _ h9]
            exact hn9
    · simp at h

/-- C7: after every sequence of successful operations starting from the
uninitialized all-zero Topic, `opt_current_idx` stays in `0 ..= 9`, every
option's `current_voter_index` stays in `0 ..= 29`, the reserved option
slot at index 9 is never assigned by `add_option` (its assigned fields keep
their zero values), and the reserved voter slot at index 29 of every option
is never assigned by `add_voter`. -/
theorem c7_structural_invariants (t : Topic) (h : Reachable t) : TopicInv t := by
  induction h with
  | base => decide
  | step hr hstep ih =>
    rename_i t1 t2
    cases hstep with
    | create tk ow tn on2 hc =>
      unfold createTopicBody at hc
      split at hc
      · simp at hc
      · exact add_option_inv _ tk on2 t2 hc ih
    | add tk nm hc =>
      unfold addOptionBody at hc
      split at hc
      · simp at hc
      · exact add_option_inv _ tk nm t2 hc ih
    | vote vk i hc =>
      unfold voteBody at hc
      split at hc
      · simp at hc
      · exact vote_inv _ vk i t2 hc ih
    | finish ow hc =>
      unfold finishBody Topic.finalize at hc
      split at hc
      · simp at hc
      · split at hc
        · simp at hc
        · injection hc with hc
          subst hc
          exact ih

theorem c7_structural_invariants_witness : TopicInv c8T0 :=
  c7_structural_invariants c8T0
    (Reachable.step Reachable.base
      (StepOp.create (List.replicate 32 9) (List.replicate 32 7) [116] [111] (by decide)))
